import Mathlib

/-!
Verification of the local module manager of PaddleHub
(`paddlehub/module/manager.py`).

The manager is embedded shallowly:

* `HubModule` is the handle produced by loading a module directory.
* The filesystem is a flat association list from directory paths to opaque
  `Content` values; a whole module directory tree counts as one entry, and
  `shutil.copytree` / `shutil.rmtree` / `os.makedirs` become operations on it.
  Paths are structured (`FsPath`): either a subdirectory of a manager's home,
  or an external path, so `os.listdir(home)` is a simple filter.
* External collaborators (the registry server, `HubModule.load`, the download
  and unarchive primitives, pip) are fields of a `World` record of pure
  functions: the manager's behaviour is a function of the world.  The scoped
  temporary directories of the resolver exist only transiently and only pass
  contents along, so they are modelled by value flow, not by fs entries.
* Every operation returns its result, the updated `ManagerState`, and an
  ordered list of `Effect`s (network, disk writes, lock events), so that
  claims about "no network / no disk work" and about lock scope become
  statements about the effect trace.
* Python exceptions become `Except InstallError`; Python truthiness of
  optional string arguments is modelled by `strOpt`.
-/

set_option maxHeartbeats 1000000

namespace PaddleHubSpec

/-- The in-memory result of loading a module directory (`HubModule`).
Only the fields the manager inspects are modelled: the declared name and
version. -/
structure HubModule where
  name : String
  version : String
deriving Repr, DecidableEq

/-- One entry of the candidate table returned by `module_server.get_module_info`:
the required PaddlePaddle and PaddleHub version constraints. -/
structure ModuleInfo where
  paddle_version : List String
  hub_version : List String
deriving Repr, DecidableEq

/-- Opaque directory (or archive file) contents. `blob` stands for arbitrary
pre-existing content; `stub` is the generated `module.py` file written by
`_install_from_source`. -/
inductive Content where
  | blob (id : Nat)
  | stub (clsName : String) (path : String)
deriving Repr, DecidableEq

/-- A directory or file path in the flat filesystem: either an entry directly
under some manager's home directory (`home/<subdir>`), or a path elsewhere
(a caller-supplied source directory, an archive file). -/
inductive FsPath where
  | inHome (home : String) (subdir : String)
  | ext (path : String)
deriving Repr, DecidableEq

/-- Result of `module_server.search_module`: either a direct download url or a
source descriptor `{name, class, path}` pointing at a git checkout. -/
inductive SearchResult where
  | url (u : String)
  | src (name clsName path : String)
deriving Repr, DecidableEq

/-- The exceptions the manager can raise.  `notFound` is
`HubModuleNotFoundError` (with its optional candidate table), `envMismatch` is
`EnvironmentMismatchError`, `invalidRequest` is the `RuntimeError` raised when
no install source parameter is given; the remaining constructors stand for the
builtin exceptions that escape (`FileExistsError` from `os.makedirs` /
`shutil.copytree`, load errors from `HubModule.load`, missing paths). -/
inductive InstallError where
  | notFound (name : String) (info : Option (List (String × ModuleInfo)))
      (version source : Option String)
  | envMismatch (name : String) (info : List (String × ModuleInfo))
      (version : Option String)
  | invalidRequest
  | loadFailure (path : FsPath)
  | fileExists (path : FsPath)
  | fsMissing (path : FsPath)
  | badServerReply
deriving Repr, DecidableEq

/-- Observable side effects of a manager call, in program order. -/
inductive Effect where
  | lockAcquire (name : String)
  | lockRelease (name : String)
  | registryQuery (name : String)
  | registryInfo (name : String)
  | download (url : String)
  | unarchive
  | loadDir (path : FsPath)
  | fsWrite (path : FsPath)
  | fsRemove (path : FsPath)
  | pipInstall (req : String)
deriving Repr, DecidableEq

/-! ### Association lists

`OrderedDict` (the module cache) and the flat filesystem are both association
lists with Python dict semantics: assignment to a present key updates in
place, to an absent key appends at the end. -/

/-- Lookup (`d[k]` / `k in d`). -/
def alGet {κ α : Type} [DecidableEq κ] : List (κ × α) → κ → Option α
  | [], _ => none
  | p :: m, k => if p.1 = k then some p.2 else alGet m k

/-- Assignment `d[k] = v`: update in place if present, append otherwise. -/
def alSet {κ α : Type} [DecidableEq κ] : List (κ × α) → κ → α → List (κ × α)
  | [], k, v => [(k, v)]
  | p :: m, k, v => if p.1 = k then (k, v) :: m else p :: alSet m k v

/-- Deletion `d.pop(k)` / removal of a filesystem entry. -/
def alRemove {κ α : Type} [DecidableEq κ] : List (κ × α) → κ → List (κ × α)
  | [], _ => []
  | p :: m, k => if p.1 = k then alRemove m k else p :: alRemove m k

/-- Python truthiness of an optional string parameter: `None` and `''` are
falsy; a truthy value is returned as `some`. -/
def strOpt (o : Option String) : Option String :=
  match o with
  | none => none
  | some s => if s.isEmpty then none else some s

/-- The external collaborators, as pure functions. -/
structure World where
  /-- `utils.Version(v).match(clause)` for a truthy constraint clause. -/
  vm : String → String → Bool
  /-- `HubModule.load` on a directory: depends only on its contents. -/
  load : Content → Option HubModule
  /-- `HubModule.load_module_info(...).name`. -/
  loadInfo : Content → Option String
  /-- `module_server.search_module(name, version, source)`. -/
  searchModule : String → Option String → Option String → Option SearchResult
  /-- `module_server.get_module_info(name, source)`; the empty list is the
  falsy "no versions exist upstream" reply. -/
  getModuleInfo : String → Option String → List (String × ModuleInfo)
  /-- contents of the archive downloaded from a url. -/
  downloadFile : String → Content
  /-- unarchiving: the top-level directory name and its contents. -/
  unarchive : Content → String × Content
  /-- `hub_module_cls.get_py_requirements()`. -/
  pyRequirements : HubModule → List String
  /-- `pypi.install`. -/
  pipInstall : String → Bool

/-- `utils.Version(v).match(version)` where `version` is an optional request
parameter.  Modelled from the spec for the absent case — "An empty/absent
constraint set matches any candidate" — since `utils.Version` is outside the
embedded file; a truthy clause is delegated to the abstract matcher. -/
def verMatch (w : World) (v : String) (constraint : Option String) : Bool :=
  match strOpt constraint with
  | none => true
  | some c => w.vm v c

/-- The mutable state of one `LocalModuleManager`: its home directory, the
flat filesystem, and the `_local_modules` cache. -/
structure ManagerState where
  home : String
  fs : List (FsPath × Content)
  localModules : List (String × HubModule)
deriving Repr, DecidableEq

/-- `_get_normalized_name`: `name.replace('-', '_')`.  For the
single-character pattern this is the character-wise map. -/
def getNormalizedName (name : String) : String :=
  String.mk (name.toList.map (fun ch => if ch = '-' then '_' else ch))

/-- `_get_normalized_path`: `os.path.join(self.home, normalized)`. -/
def getNormalizedPath (home : String) (name : String) : FsPath :=
  FsPath.inHome home (getNormalizedName name)

/-- `search(name)`: cache hit, else try to load the normalized home
subdirectory, caching it on success; a load error is caught and logged and
`None` is returned. -/
def search (w : World) (s : ManagerState) (name : String) :
    Option HubModule × ManagerState × List Effect :=
  match alGet s.localModules name with
  | some m => (some m, s, [])
  | none =>
    let dir := getNormalizedPath s.home name
    match alGet s.fs dir with
    | none => (none, s, [])
    | some c =>
      match w.load c with
      | some m =>
        (some m, { s with localModules := alSet s.localModules name m },
          [Effect.loadDir dir])
      | none => (none, s, [Effect.loadDir dir])

/-- `uninstall(name)`: `False` when the normalized subdirectory is absent;
otherwise `shutil.rmtree` it, pop the cache entry if present, return `True`. -/
def uninstall (s : ManagerState) (name : String) :
    Bool × ManagerState × List Effect :=
  let dir := getNormalizedPath s.home name
  match alGet s.fs dir with
  | none => (false, s, [])
  | some _ =>
    (true,
      { s with
        fs := alRemove s.fs dir
        localModules := alRemove s.localModules name },
      [Effect.fsRemove dir])

/-- The loop body of `list()`: `self._local_modules[subdir] = HubModule.load(fulldir)`
for each entry of `os.listdir(self.home)`.  There is no exception handler, so a
load failure aborts the loop, leaving the cache partially refreshed. -/
def listLoad (w : World) (home : String) (fs : List (FsPath × Content)) :
    List String → List (String × HubModule) →
    Except InstallError Unit × List (String × HubModule) × List Effect
  | [], cache => (Except.ok (), cache, [])
  | sub :: rest, cache =>
    let fulldir := FsPath.inHome home sub
    match alGet fs fulldir with
    | none => (Except.error (InstallError.fsMissing fulldir), cache, [])
    | some c =>
      match w.load c with
      | none => (Except.error (InstallError.loadFailure fulldir), cache,
          [Effect.loadDir fulldir])
      | some m =>
        let r := listLoad w home fs rest (alSet cache sub m)
        (r.1, r.2.1, Effect.loadDir fulldir :: r.2.2)

/-- `os.listdir(self.home)` in the flat filesystem: the entries directly under
the home directory, in filesystem order. -/
def listdir (s : ManagerState) : List String :=
  s.fs.filterMap (fun p =>
    match p.1 with
    | FsPath.inHome h sub => if h = s.home then some sub else none
    | FsPath.ext _ => none)

/-- `list()`: reload every home subdirectory into the cache, then return all
cache values. -/
def list (w : World) (s : ManagerState) :
    Except InstallError (List HubModule) × ManagerState × List Effect :=
  let r := listLoad w s.home s.fs (listdir s) s.localModules
  match r.1 with
  | Except.ok _ =>
    (Except.ok (r.2.1.map (fun p => p.2)), { s with localModules := r.2.1 }, r.2.2)
  | Except.error e => (Except.error e, { s with localModules := r.2.1 }, r.2.2)

/-- The "uninstall the local module if installed" step shared by
`_install_from_source` and `_install_from_directory`:
`if self.search(name): self.uninstall(name)`. -/
def supersede (w : World) (s : ManagerState) (name : String) :
    ManagerState × List Effect :=
  let r1 := search w s name
  match r1.1 with
  | some _ =>
    let u := uninstall r1.2.1 name
    (u.2.1, r1.2.2 ++ u.2.2)
  | none => (r1.2.1, r1.2.2)

/-- The tail of `_install_from_directory` after the source has been copied to
a scoped temporary directory: load the handle from the copy, uninstall any
already-installed module of the same name, copy into the permanent home
location, reload from there, register, and best-effort-install the declared
pip requirements.  `c` is the contents of the temporary copy (identical to the
source directory's contents). -/
def install_resolved (w : World) (s : ManagerState) (c : Content) :
    Except InstallError HubModule × ManagerState × List Effect :=
  match w.load c with
  | none => (Except.error (InstallError.loadFailure (FsPath.ext "<tempdir>")), s, [])
  | some m0 =>
    let r := supersede w s m0.name
    let s2 := r.1
    let e12 := r.2
    let dir := getNormalizedPath s2.home m0.name
    match alGet s2.fs dir with
    | some _ => (Except.error (InstallError.fileExists dir), s2, e12)
    | none =>
      let s3 := { s2 with fs := alSet s2.fs dir c }
      match w.load c with
      | none => (Except.error (InstallError.loadFailure dir), s3,
          e12 ++ [Effect.fsWrite dir, Effect.loadDir dir])
      | some m =>
        (Except.ok m,
          { s3 with localModules := alSet s3.localModules m.name m },
          e12 ++ [Effect.fsWrite dir, Effect.loadDir dir]
            ++ (w.pyRequirements m).map Effect.pipInstall)

/-- `_install_from_directory(directory)`: read the declared name
(`load_module_info`), then run the copy/load/adopt sequence on the directory's
contents. -/
def install_from_directory (w : World) (s : ManagerState) (directory : FsPath) :
    Except InstallError HubModule × ManagerState × List Effect :=
  match alGet s.fs directory with
  | none => (Except.error (InstallError.fsMissing directory), s, [])
  | some c =>
    match w.loadInfo c with
    | none => (Except.error (InstallError.loadFailure directory), s, [])
    | some _ => install_resolved w s c

/-- `_install_from_archive` applied to the contents of an archive already at
hand: unarchive into a temporary directory and install from its single
top-level entry. -/
def install_from_archive_content (w : World) (s : ManagerState) (ac : Content) :
    Except InstallError HubModule × ManagerState × List Effect :=
  let dc := (w.unarchive ac).2
  let r := match w.loadInfo dc with
    | none => (Except.error (InstallError.loadFailure (FsPath.ext "<tempdir>")), s,
        ([] : List Effect))
    | some _ => install_resolved w s dc
  (r.1, r.2.1, Effect.unarchive :: r.2.2)

/-- `_install_from_archive(archive)` for an archive file on disk. -/
def install_from_archive (w : World) (s : ManagerState) (archive : FsPath) :
    Except InstallError HubModule × ManagerState × List Effect :=
  match alGet s.fs archive with
  | none => (Except.error (InstallError.fsMissing archive), s, [])
  | some ac => install_from_archive_content w s ac

/-- `_install_from_url(url)`: download into a temporary directory, then
install the downloaded archive. -/
def install_from_url (w : World) (s : ManagerState) (url : String) :
    Except InstallError HubModule × ManagerState × List Effect :=
  let r := install_from_archive_content w s (w.downloadFile url)
  (r.1, r.2.1, Effect.download url :: r.2.2)

/-- `_install_from_source(source)`: uninstall any installed module of the same
name, `os.makedirs` the normalized path (raising if it still exists), write the
generated `module.py` stub, load it and register it. -/
def install_from_source (w : World) (s : ManagerState)
    (name clsName path : String) :
    Except InstallError HubModule × ManagerState × List Effect :=
  let r := supersede w s name
  let s2 := r.1
  let e12 := r.2
  let dir := getNormalizedPath s2.home name
  match alGet s2.fs dir with
  | some _ => (Except.error (InstallError.fileExists dir), s2, e12)
  | none =>
    let c := Content.stub clsName path
    let s3 := { s2 with fs := alSet s2.fs dir c }
    match w.load c with
    | none => (Except.error (InstallError.loadFailure dir), s3,
        e12 ++ [Effect.fsWrite dir, Effect.loadDir dir])
    | some m =>
      (Except.ok m, { s3 with localModules := alSet s3.localModules name m },
        e12 ++ [Effect.fsWrite dir, Effect.loadDir dir])

/-- The `valid_infos` table built by `_install_from_name` when the registry
returns no candidate: the sub-table of candidates matching the requested
version, or the full copy when no (truthy) version was requested. -/
def validInfos (w : World) (module_infos : List (String × ModuleInfo))
    (version : Option String) : List (String × ModuleInfo) :=
  match strOpt version with
  | some v => module_infos.filter (fun p => w.vm p.1 v)
  | none => module_infos

/-- The part of `_install_from_name` after its own cache check: query the
registry; when it answers, dispatch on the reply shape; when it returns no
candidate, build the error from `get_module_info` and the requested version. -/
def install_from_name_query (w : World) (s : ManagerState) (name : String)
    (version source : Option String) :
    Except InstallError HubModule × ManagerState × List Effect :=
  match w.searchModule name version source with
  | none =>
    let module_infos := w.getModuleInfo name source
    let errEffects := [Effect.registryQuery name, Effect.registryInfo name]
    if module_infos.isEmpty then
      (Except.error (InstallError.notFound name none version source), s, errEffects)
    else
      let valid_infos := validInfos w module_infos version
      if valid_infos.isEmpty then
        (Except.error (InstallError.notFound name (some module_infos) version source),
          s, errEffects)
      else
        (Except.error (InstallError.envMismatch name valid_infos version), s, errEffects)
  | some result =>
    match result with
    | SearchResult.src n clsName path =>
      let r := install_from_source w s n clsName path
      (r.1, r.2.1, Effect.registryQuery name :: r.2.2)
    | SearchResult.url u =>
      if (strOpt source).isSome then
        -- `source` truthy forces the source-descriptor branch, but the reply
        -- carries no name/class/path keys: a KeyError escapes.
        (Except.error InstallError.badServerReply, s, [Effect.registryQuery name])
      else
        let r := install_from_url w s u
        (r.1, r.2.1, Effect.registryQuery name :: r.2.2)

/-- `_install_from_name(name, version, source)`: return the cached handle when
it satisfies the requested version, otherwise query the registry. -/
def install_from_name (w : World) (s : ManagerState) (name : String)
    (version source : Option String) :
    Except InstallError HubModule × ManagerState × List Effect :=
  match alGet s.localModules name with
  | some m =>
    if verMatch w m.version version then (Except.ok m, s, [])
    else install_from_name_query w s name version source
  | none => install_from_name_query w s name version source

/-- `install(name, directory, archive, url, version, source)`: dispatch on the
first truthy source parameter; the by-name path runs under the per-name file
lock and short-circuits when an already-installed module satisfies the
requested version.  Caller-supplied directory and archive paths are external
paths. -/
def install (w : World) (s : ManagerState)
    (name directory archive url version source : Option String) :
    Except InstallError HubModule × ManagerState × List Effect :=
  match strOpt name with
  | some n =>
    let r1 := search w s n
    let body := match r1.1 with
      | some m =>
        if verMatch w m.version version then (Except.ok m, r1.2.1, r1.2.2)
        else
          let r2 := install_from_name w r1.2.1 n version source
          (r2.1, r2.2.1, r1.2.2 ++ r2.2.2)
      | none =>
        let r2 := install_from_name w r1.2.1 n version source
        (r2.1, r2.2.1, r1.2.2 ++ r2.2.2)
    (body.1, body.2.1,
      Effect.lockAcquire n :: body.2.2 ++ [Effect.lockRelease n])
  | none =>
    match strOpt directory with
    | some d => install_from_directory w s (FsPath.ext d)
    | none =>
      match strOpt archive with
      | some a => install_from_archive w s (FsPath.ext a)
      | none =>
        match strOpt url with
        | some u => install_from_url w s u
        | none => (Except.error InstallError.invalidRequest, s, [])

/-! ### The path-keyed singleton (`__new__` / `__init__`) -/

/-- The default home directory constant. -/
def MODULE_HOME : String := "~/.paddlehub/modules"

/-- The per-instance fields set by `__init__`. -/
structure InstanceState where
  home : String
  localModules : List (String × HubModule)
deriving Repr, DecidableEq

/-- Process-wide state touched by constructing a `LocalModuleManager`: the
class-level `_instance_map`, the fields of every live instance (identified by
a numeric id standing for object identity), and `sys.path`. -/
structure HubGlobal where
  instanceMap : List (String × Nat)
  instanceFields : List (Nat × InstanceState)
  nextId : Nat
  sysPath : List String
deriving Repr, DecidableEq

/-- Constructing `LocalModuleManager(home)`: `__new__` returns the memoized
instance for the (uncanonicalized) home string, allocating one on first use;
Python then always runs `__init__` on the returned instance, which resets
`_local_modules` to empty and prepends `home` to `sys.path` when absent. -/
def constructManager (g : HubGlobal) (home : Option String) : Nat × HubGlobal :=
  let h := match strOpt home with
    | none => MODULE_HOME
    | some s => s
  let p := match alGet g.instanceMap h with
    | some i => (i, g)
    | none =>
      (g.nextId,
        { g with
          instanceMap := alSet g.instanceMap h g.nextId
          nextId := g.nextId + 1 })
  let g2 :=
    { p.2 with
      instanceFields :=
        alSet p.2.instanceFields p.1 { home := h, localModules := [] }
      sysPath := if h ∈ p.2.sysPath then p.2.sysPath else h :: p.2.sysPath }
  (p.1, g2)

/-! ### Association list lemmas -/

section AssocLemmas

variable {κ α : Type} [DecidableEq κ]

theorem alGet_set_self (m : List (κ × α)) (k : κ) (v : α) :
    alGet (alSet m k v) k = some v := by
  induction m with
  | nil => simp [alGet, alSet]
  | cons p m ih =>
    by_cases h : p.1 = k
    · simp [alSet, h, alGet]
    · simp [alSet, h, alGet, ih]

theorem alGet_set_ne (m : List (κ × α)) (k k' : κ) (v : α) (h : k ≠ k') :
    alGet (alSet m k v) k' = alGet m k' := by
  induction m with
  | nil => simp [alGet, alSet, h]
  | cons p m ih =>
    by_cases hp : p.1 = k
    · simp [alSet, hp, alGet, h, hp ▸ h]
    · simp [alSet, hp, alGet, ih]

theorem alGet_remove_self (m : List (κ × α)) (k : κ) :
    alGet (alRemove m k) k = none := by
  induction m with
  | nil => simp [alRemove, alGet]
  | cons p m ih =>
    by_cases h : p.1 = k
    · simp [alRemove, h, ih]
    · simp [alRemove, h, alGet, ih]

theorem alGet_remove_ne (m : List (κ × α)) (k k' : κ) (h : k ≠ k') :
    alGet (alRemove m k) k' = alGet m k' := by
  induction m with
  | nil => simp [alRemove]
  | cons p m ih =>
    by_cases hp : p.1 = k
    · simp [alRemove, hp, alGet, ih, h]
    · simp [alRemove, hp, alGet, ih]

theorem keys_alSet_mem (m : List (κ × α)) (k : κ) (v : α)
    (h : k ∈ m.map Prod.fst) :
    (alSet m k v).map Prod.fst = m.map Prod.fst := by
  induction m with
  | nil => simp at h
  | cons p m ih =>
    by_cases hp : p.1 = k
    · simp [alSet, hp]
    · rw [List.map_cons] at h
      have hk : k ∈ m.map Prod.fst := by
        rcases List.mem_cons.1 h with h' | h'
        · exact absurd h'.symm hp
        · exact h'
      simp [alSet, hp, ih hk]

theorem keys_alSet_not_mem (m : List (κ × α)) (k : κ) (v : α)
    (h : k ∉ m.map Prod.fst) :
    (alSet m k v).map Prod.fst = m.map Prod.fst ++ [k] := by
  induction m with
  | nil => simp [alSet]
  | cons p m ih =>
    have hp : p.1 ≠ k := fun hh => h (by simp [hh])
    have hm : k ∉ m.map Prod.fst := fun hh => h (by simp [hh])
    simp [alSet, hp, ih hm]

theorem keys_nodup_alSet (m : List (κ × α)) (k : κ) (v : α)
    (hm : (m.map Prod.fst).Nodup) :
    ((alSet m k v).map Prod.fst).Nodup := by
  by_cases h : k ∈ m.map Prod.fst
  · rwa [keys_alSet_mem m k v h]
  · rw [keys_alSet_not_mem m k v h]
    rw [List.nodup_append_comm]
    exact List.nodup_cons.2 ⟨h, hm⟩

theorem alRemove_sublist (m : List (κ × α)) (k : κ) :
    (alRemove m k).Sublist m := by
  induction m with
  | nil => simp [alRemove]
  | cons p m ih =>
    by_cases hp : p.1 = k
    · simpa [alRemove, hp] using ih.cons p
    · simpa [alRemove, hp] using ih.cons₂ p

theorem keys_nodup_alRemove (m : List (κ × α)) (k : κ)
    (hm : (m.map Prod.fst).Nodup) :
    ((alRemove m k).map Prod.fst).Nodup :=
  (((alRemove_sublist m k).map Prod.fst).nodup hm)

end AssocLemmas

@[simp] theorem strOpt_none : strOpt none = none := rfl

/-! ### Basic facts about `search` -/

theorem search_fst_none (w : World) (s : ManagerState) (name : String)
    (h : (search w s name).1 = none) :
    (search w s name).2.1 = s ∧ alGet s.localModules name = none := by
  unfold search at h ⊢
  rcases hc : alGet s.localModules name with _ | m
  · rcases hf : alGet s.fs (getNormalizedPath s.home name) with _ | c
    · simp [hc, hf]
    · rcases hl : w.load c with _ | m
      · simp [hc, hf, hl]
      · simp [hc, hf, hl] at h
  · simp [hc] at h

theorem search_preserves_fs (w : World) (s : ManagerState) (name : String) :
    (search w s name).2.1.fs = s.fs ∧ (search w s name).2.1.home = s.home := by
  unfold search
  rcases hc : alGet s.localModules name with _ | m
  · rcases hf : alGet s.fs (getNormalizedPath s.home name) with _ | c
    · simp [hc, hf]
    · rcases hl : w.load c with _ | m <;> simp [hc, hf, hl]
  · simp [hc]

/-! ### C7 -/

/-- C7: `uninstall(name)` returns `False` and performs no mutation when the
normalized home subdirectory does not exist; when it exists it removes the
directory tree, drops the cache entry, returns `True` leaving no residual
directory, and a second call in a row returns `False`. -/
theorem C7_uninstall_contract (s : ManagerState) (name : String) :
    (alGet s.fs (getNormalizedPath s.home name) = none →
      uninstall s name = (false, s, [])) ∧
    (alGet s.fs (getNormalizedPath s.home name) ≠ none →
      (uninstall s name).1 = true ∧
      alGet (uninstall s name).2.1.fs (getNormalizedPath s.home name) = none ∧
      alGet (uninstall s name).2.1.localModules name = none ∧
      (uninstall (uninstall s name).2.1 name).1 = false) := by
  rcases h : alGet s.fs (getNormalizedPath s.home name) with _ | c
  · exact ⟨fun _ => by simp [uninstall, h], fun hne => absurd rfl hne⟩
  · have hu : uninstall s name
        = (true,
            { s with
              fs := alRemove s.fs (getNormalizedPath s.home name)
              localModules := alRemove s.localModules name },
            [Effect.fsRemove (getNormalizedPath s.home name)]) := by
      simp [uninstall, h]
    constructor
    · intro h0
      exact nomatch h0
    · intro _
      refine ⟨by rw [hu], ?_, ?_, ?_⟩
      · rw [hu]; exact alGet_remove_self s.fs (getNormalizedPath s.home name)
      · rw [hu]; exact alGet_remove_self s.localModules name
      · rw [hu]; simp [uninstall, alGet_remove_self]

/-- Witness for C7 at a concrete installed module. -/
theorem C7_uninstall_contract_witness :
    (uninstall
        { home := "home", fs := [(FsPath.inHome "home" "demo", Content.blob 0)],
          localModules := [] } "demo").1 = true :=
  ((C7_uninstall_contract
      { home := "home", fs := [(FsPath.inHome "home" "demo", Content.blob 0)],
        localModules := [] } "demo").2 (by decide)).1

/-! ### Concrete worlds and states for witnesses and counterexamples -/

/-- A fixed demo handle. -/
def demoModule : HubModule := { name := "demo", version := "1.0" }

/-- A world where every directory loads as `demoModule` and the registry
returns nothing. -/
def demoWorld : World where
  vm := fun _ _ => true
  load := fun _ => some demoModule
  loadInfo := fun _ => some "demo"
  searchModule := fun _ _ _ => none
  getModuleInfo := fun _ _ => []
  downloadFile := fun _ => Content.blob 0
  unarchive := fun _ => ("demo", Content.blob 0)
  pyRequirements := fun _ => []
  pipInstall := fun _ => true

/-- A state with `demo` installed on disk and cached. -/
def demoState : ManagerState where
  home := "home"
  fs := [(FsPath.inHome "home" "demo", Content.blob 0)]
  localModules := [("demo", demoModule)]

/-! ### C6 -/

/-- C6 is refuted: a call giving two source parameters (`name` and
`directory`) does not fail with the invalid-arguments error — the by-name
path silently wins and here returns the cached handle. -/
theorem C6_counterexample_multiple_sources :
    (install demoWorld demoState (some "demo") (some "/tmp/mymod") none none
        none none).1 = Except.ok demoModule ∧
    (install demoWorld demoState (some "demo") (some "/tmp/mymod") none none
        none none).1 ≠ Except.error InstallError.invalidRequest := by
  constructor
  · rfl
  · intro hcontra
    rw [show (install demoWorld demoState (some "demo") (some "/tmp/mymod")
        none none none none).1 = Except.ok demoModule from rfl] at hcontra
    exact nomatch hcontra

/-- C6 amended: a call with zero truthy source parameters fails with the
invalid-arguments error, but a call with more than one does not fail: the
first truthy parameter in the order name, directory, archive, url is used and
the others are ignored. -/
theorem C6_amended_source_dispatch (w : World) (s : ManagerState)
    (name directory archive url version source : Option String) :
    (strOpt name = none → strOpt directory = none → strOpt archive = none →
        strOpt url = none →
      install w s name directory archive url version source
        = (Except.error InstallError.invalidRequest, s, [])) ∧
    (strOpt name ≠ none →
      install w s name directory archive url version source
        = install w s name none none none version source) ∧
    (strOpt name = none → strOpt directory ≠ none →
      install w s name directory archive url version source
        = install w s none directory none none version source) ∧
    (strOpt name = none → strOpt directory = none → strOpt archive ≠ none →
      install w s name directory archive url version source
        = install w s none none archive none version source) := by
  refine ⟨?_, ?_, ?_, ?_⟩
  · intro h1 h2 h3 h4
    simp [install, h1, h2, h3, h4]
  · intro h1
    rcases hn : strOpt name with _ | n
    · exact absurd hn h1
    · simp [install, hn]
  · intro h1 h2
    rcases hd : strOpt directory with _ | d
    · exact absurd hd h2
    · simp [install, h1, hd]
  · intro h1 h2 h3
    rcases ha : strOpt archive with _ | a
    · exact absurd ha h3
    · simp [install, h1, h2, ha]

/-- Witness for the amended C6: the zero-parameter call errors out. -/
theorem C6_amended_source_dispatch_witness :
    install demoWorld demoState none none none none none none
      = (Except.error InstallError.invalidRequest, demoState, []) :=
  (C6_amended_source_dispatch demoWorld demoState none none none none
      none none).1 rfl rfl rfl rfl

/-! ### C10 -/

theorem constructManager_map_get (g : HubGlobal) (h : String)
    (hh : h.isEmpty = false) :
    alGet (constructManager g (some h)).2.instanceMap h
      = some (constructManager g (some h)).1 := by
  unfold constructManager
  rcases hm : alGet g.instanceMap h with _ | i
  · simp [strOpt, hh, hm, alGet_set_self]
  · simp [strOpt, hh, hm]

theorem constructManager_hit (g : HubGlobal) (h : String) (i : Nat)
    (hh : h.isEmpty = false) (hm : alGet g.instanceMap h = some i) :
    constructManager g (some h)
      = (i,
          { g with
            instanceFields :=
              alSet g.instanceFields i { home := h, localModules := [] }
            sysPath := if h ∈ g.sysPath then g.sysPath else h :: g.sysPath }) := by
  simp [constructManager, strOpt, hh, hm]

/-- C10: constructing `LocalModuleManager(h)` twice returns the identical
instance (deduplicated by the raw home string), but every construction
re-runs `__init__` on the shared instance: its module cache is reset to empty
and `h` is inserted at the front of `sys.path` when absent — even when cached
handles (`fields`) and `sys.path` (`sp`) changed in between. -/
theorem C10_singleton_reinit (g : HubGlobal) (h : String)
    (hh : h.isEmpty = false) (fields : List (Nat × InstanceState))
    (sp : List String) :
    (constructManager
        { (constructManager g (some h)).2 with
          instanceFields := fields, sysPath := sp } (some h)).1
      = (constructManager g (some h)).1 ∧
    alGet (constructManager
        { (constructManager g (some h)).2 with
          instanceFields := fields, sysPath := sp } (some h)).2.instanceFields
        (constructManager g (some h)).1
      = some { home := h, localModules := [] } ∧
    (h ∈ sp →
      (constructManager
        { (constructManager g (some h)).2 with
          instanceFields := fields, sysPath := sp } (some h)).2.sysPath = sp) ∧
    (h ∉ sp →
      (constructManager
        { (constructManager g (some h)).2 with
          instanceFields := fields, sysPath := sp } (some h)).2.sysPath
        = h :: sp) := by
  have hmap : alGet ({ (constructManager g (some h)).2 with
      instanceFields := fields, sysPath := sp } : HubGlobal).instanceMap h
      = some (constructManager g (some h)).1 := by
    simpa using constructManager_map_get g h hh
  rw [constructManager_hit _ h _ hh hmap]
  refine ⟨rfl, ?_, ?_, ?_⟩
  · simpa using alGet_set_self fields (constructManager g (some h)).1
      { home := h, localModules := [] }
  · intro hmem
    simp [hmem]
  · intro hmem
    simp [hmem]

/-! ### Lemmas about `list` -/

theorem alGet_mem_values {κ α : Type} [DecidableEq κ] (m : List (κ × α))
    (k : κ) (v : α) (h : alGet m k = some v) : v ∈ m.map Prod.snd := by
  induction m with
  | nil => simp [alGet] at h
  | cons p m ih =>
    by_cases hp : p.1 = k
    · simp only [alGet, hp, if_pos, Option.some.injEq] at h
      simp [h]
    · simp only [alGet, hp, if_neg, not_false_iff] at h
      simp [ih h]

/-- The handle obtained by loading home subdirectory `sub` from disk. -/
def diskHandle (w : World) (home : String) (fs : List (FsPath × Content))
    (sub : String) : Option HubModule :=
  (alGet fs (FsPath.inHome home sub)).bind w.load

/-- `sub` is a home subdirectory that exists but cannot be loaded (or has
vanished between `listdir` and the load). -/
def loadFails (w : World) (home : String) (fs : List (FsPath × Content))
    (sub : String) : Prop :=
  ∀ c, alGet fs (FsPath.inHome home sub) = some c → w.load c = none

/-- When some listed subdirectory fails to load, the `list` loop aborts with
an error. -/
theorem listLoad_error_of_fails (w : World) (home : String)
    (fs : List (FsPath × Content)) :
    ∀ (subs : List String) (cache : List (String × HubModule)),
      (∃ sub ∈ subs, loadFails w home fs sub) →
      ∃ e, (listLoad w home fs subs cache).1 = Except.error e := by
  intro subs
  induction subs with
  | nil =>
    intro cache h
    rcases h with ⟨sub, hmem, _⟩
    cases hmem
  | cons sub0 rest ih =>
    intro cache h
    rcases hf : alGet fs (FsPath.inHome home sub0) with _ | c
    · exact ⟨InstallError.fsMissing (FsPath.inHome home sub0),
        by simp [listLoad, hf]⟩
    · rcases hl : w.load c with _ | m
      · exact ⟨InstallError.loadFailure (FsPath.inHome home sub0),
          by simp [listLoad, hf, hl]⟩
      · rcases h with ⟨sub, hmem, hfail⟩
        rcases List.mem_cons.1 hmem with rfl | hmem'
        · exact absurd (hfail c hf) (by simp [hl])
        · rcases ih (alSet cache sub0 m) ⟨sub, hmem', hfail⟩ with ⟨e, he⟩
          exact ⟨e, by simp [listLoad, hf, hl, he]⟩

/-- When every listed subdirectory loads, the `list` loop succeeds and the
refreshed cache maps every listed subdirectory to its freshly loaded handle
while all other entries are untouched. -/
theorem listLoad_all_ok (w : World) (home : String)
    (fs : List (FsPath × Content)) :
    ∀ (subs : List String) (cache : List (String × HubModule)),
      (∀ sub ∈ subs, (diskHandle w home fs sub).isSome) →
      (listLoad w home fs subs cache).1 = Except.ok () ∧
      ∀ k, alGet (listLoad w home fs subs cache).2.1 k
        = if k ∈ subs then diskHandle w home fs k else alGet cache k := by
  intro subs
  induction subs with
  | nil =>
    intro cache _
    exact ⟨rfl, fun k => by simp [listLoad]⟩
  | cons sub0 rest ih =>
    intro cache hall
    have h0 : (diskHandle w home fs sub0).isSome := hall sub0 (by simp)
    rcases hf : alGet fs (FsPath.inHome home sub0) with _ | c
    · rw [diskHandle, hf] at h0
      exact nomatch h0
    · rcases hl : w.load c with _ | m
      · rw [diskHandle, hf] at h0
        simp [hl] at h0
      · have hrest : ∀ sub ∈ rest, (diskHandle w home fs sub).isSome :=
          fun sub hs => hall sub (by simp [hs])
        obtain ⟨hok, hget⟩ := ih (alSet cache sub0 m) hrest
        constructor
        · simp [listLoad, hf, hl, hok]
        · intro k
          have hk := hget k
          by_cases hkr : k ∈ rest
          · simp [listLoad, hf, hl, hk, hkr]
          · by_cases hk0 : k = sub0
            · subst hk0
              simp [listLoad, hf, hl, hk, hkr, alGet_set_self,
                diskHandle]
            · simp [listLoad, hf, hl, hk, hkr, hk0,
                alGet_set_ne cache sub0 k m (fun hh => hk0 hh.symm)]

/-! ### C4 -/

/-- Contents that fail to load. -/
def corruptContent : Content := Content.blob 99

/-- A world where `corruptContent` fails to load and everything else loads as
`demoModule`. -/
def corruptWorld : World where
  vm := fun _ _ => true
  load := fun c => if c = corruptContent then none else some demoModule
  loadInfo := fun _ => some "demo"
  searchModule := fun _ _ _ => none
  getModuleInfo := fun _ _ => []
  downloadFile := fun _ => Content.blob 0
  unarchive := fun _ => ("demo", Content.blob 0)
  pyRequirements := fun _ => []
  pipInstall := fun _ => true

/-- A state whose home contains one corrupt module directory. -/
def corruptState : ManagerState where
  home := "home"
  fs := [(FsPath.inHome "home" "bad", corruptContent)]
  localModules := []

/-- C4 is refuted for `list`: a home subdirectory that exists but fails to
load makes `list()` raise (there is no handler around `HubModule.load` in the
loop), instead of excluding the module. -/
theorem C4_counterexample_list_raises :
    (list corruptWorld corruptState).1
      = Except.error (InstallError.loadFailure (FsPath.inHome "home" "bad")) := by
  rfl

/-- C4 amended: only `search` recovers from a load failure — it logs, caches
nothing and returns absent without raising; `list` does not recover: a failing
subdirectory aborts it with an error. -/
theorem C4_amended_probe_load_failure (w : World) (s : ManagerState)
    (name : String) (c : Content)
    (hcache : alGet s.localModules name = none)
    (hdisk : alGet s.fs (getNormalizedPath s.home name) = some c)
    (hload : w.load c = none) :
    search w s name
      = (none, s, [Effect.loadDir (getNormalizedPath s.home name)]) ∧
    ((∃ sub ∈ listdir s, loadFails w s.home s.fs sub) →
      ∃ e, (list w s).1 = Except.error e) := by
  constructor
  · simp [search, hcache, hdisk, hload]
  · intro hex
    rcases listLoad_error_of_fails w s.home s.fs (listdir s) s.localModules hex
      with ⟨e, he⟩
    exact ⟨e, by simp [list, he]⟩

/-- Witness for the amended C4 at the corrupt one-module state. -/
theorem C4_amended_probe_load_failure_witness :
    search corruptWorld corruptState "bad"
      = (none, corruptState,
          [Effect.loadDir (getNormalizedPath "home" "bad")]) :=
  (C4_amended_probe_load_failure corruptWorld corruptState "bad"
      corruptContent rfl rfl rfl).1

/-! ### C5 -/

/-- A state whose cache holds a stale handle with no backing directory. -/
def staleState : ManagerState where
  home := "home"
  fs := []
  localModules := [("ghost", demoModule)]

/-- C5 is refuted: with an empty home directory but a stale cache entry,
`list()` still returns the stale handle — the loop refreshes on-disk entries
but never evicts cache entries whose directory no longer exists. -/
theorem C5_counterexample_stale_cache :
    (list demoWorld staleState).1 = Except.ok [demoModule] ∧
    listdir staleState = [] ∧
    alGet staleState.fs (getNormalizedPath "home" "ghost") = none := by
  exact ⟨rfl, rfl, rfl⟩

/-- C5 amended: `list()` is a full rescan of the home directory on top of the
existing cache: when every on-disk subdirectory loads, the call succeeds,
every on-disk module's freshly loaded handle is in the returned sequence, but
stale cache entries whose key is not an on-disk subdirectory are returned as
well, so the result can strictly exceed the on-disk set. -/
theorem C5_amended_full_rescan (w : World) (s : ManagerState)
    (hall : ∀ sub ∈ listdir s, (diskHandle w s.home s.fs sub).isSome) :
    (∃ l, (list w s).1 = Except.ok l) ∧
    (∀ sub m, sub ∈ listdir s → diskHandle w s.home s.fs sub = some m →
      ∀ l, (list w s).1 = Except.ok l → m ∈ l) ∧
    (∀ nm m, alGet s.localModules nm = some m → nm ∉ listdir s →
      ∀ l, (list w s).1 = Except.ok l → m ∈ l) := by
  obtain ⟨hok, hget⟩ :=
    listLoad_all_ok w s.home s.fs (listdir s) s.localModules hall
  have hlist : (list w s).1
      = Except.ok ((listLoad w s.home s.fs (listdir s) s.localModules).2.1.map
          Prod.snd) := by
    simp [list, hok]
  refine ⟨⟨_, hlist⟩, ?_, ?_⟩
  · intro sub m hmem hdm l hl
    rw [hlist] at hl
    injection hl with hl
    subst hl
    have hsub : alGet (listLoad w s.home s.fs (listdir s) s.localModules).2.1 sub
        = some m := by
      rw [hget sub, if_pos hmem, hdm]
    exact alGet_mem_values _ _ _ hsub
  · intro nm m hm hnot l hl
    rw [hlist] at hl
    injection hl with hl
    subst hl
    have hnm : alGet (listLoad w s.home s.fs (listdir s) s.localModules).2.1 nm
        = some m := by
      rw [hget nm, if_neg hnot]
      exact hm
    exact alGet_mem_values _ _ _ hnm

/-- One installed module on disk plus one stale cache entry. -/
def mixedState : ManagerState where
  home := "home"
  fs := [(FsPath.inHome "home" "demo", Content.blob 0)]
  localModules := [("ghost", demoModule)]

/-- Witness for the amended C5: one installed module, one stale cache entry;
the call succeeds. -/
theorem C5_amended_full_rescan_witness :
    ∃ l, (list demoWorld mixedState).1 = Except.ok l :=
  (C5_amended_full_rescan demoWorld mixedState (by decide)).1

/-! ### C1 -/

/-- C1: for a by-name install where the registry service returns no direct
candidate (and the local state gives no short-circuit), the failure is the
exact trichotomy of `_install_from_name`: no upstream version at all gives
`HubModuleNotFoundError` with no candidate table; upstream versions with at
least one matching the requested version (or no version requested) give
`EnvironmentMismatchError` carrying exactly the matching candidates; upstream
versions none of which matches the requested version give
`HubModuleNotFoundError` carrying the full candidate table. -/
theorem C1_registry_no_candidate_trichotomy (w : World) (s : ManagerState)
    (n : String) (version source : Option String)
    (hn : n.isEmpty = false)
    (hsearch : (search w s n).1 = none)
    (hquery : w.searchModule n version source = none) :
    (w.getModuleInfo n source = [] →
      (install w s (some n) none none none version source).1
        = Except.error (InstallError.notFound n none version source)) ∧
    (w.getModuleInfo n source ≠ [] →
      validInfos w (w.getModuleInfo n source) version = [] →
      (install w s (some n) none none none version source).1
        = Except.error
            (InstallError.notFound n (some (w.getModuleInfo n source))
              version source)) ∧
    (w.getModuleInfo n source ≠ [] →
      validInfos w (w.getModuleInfo n source) version ≠ [] →
      (install w s (some n) none none none version source).1
        = Except.error
            (InstallError.envMismatch n
              (validInfos w (w.getModuleInfo n source) version) version)) := by
  obtain ⟨hst, hcache⟩ := search_fst_none w s n hsearch
  have hred : (install w s (some n) none none none version source).1
      = (install_from_name_query w s n version source).1 := by
    simp [install, strOpt, hn, hsearch, hst, install_from_name, hcache]
  refine ⟨?_, ?_, ?_⟩
  · intro hinfos
    rw [hred]
    simp [install_from_name_query, hquery, hinfos]
  · intro hinfos hvalid
    rw [hred]
    simp [install_from_name_query, hquery, hinfos, hvalid]
  · intro hinfos hvalid
    rw [hred]
    simp [install_from_name_query, hquery, hinfos, hvalid]

/-- A world whose registry knows one incompatible version `1.0` of `demo`. -/
def registryMissWorld : World where
  vm := fun _ _ => false
  load := fun _ => some demoModule
  loadInfo := fun _ => some "demo"
  searchModule := fun _ _ _ => none
  getModuleInfo := fun _ _ =>
    [("1.0", { paddle_version := [">=2.0"], hub_version := [] })]
  downloadFile := fun _ => Content.blob 0
  unarchive := fun _ => ("demo", Content.blob 0)
  pyRequirements := fun _ => []
  pipInstall := fun _ => true

/-- An empty manager state over home directory `home`. -/
def emptyState : ManagerState where
  home := "home"
  fs := []
  localModules := []

/-- Witness for C1: requesting `demo >= 2.0` when upstream only has an
incompatible `1.0` yields `HubModuleNotFoundError` with the full table. -/
theorem C1_registry_no_candidate_trichotomy_witness :
    (install registryMissWorld emptyState (some "demo") none none none
        (some ">=2.0") none).1
      = Except.error
          (InstallError.notFound "demo"
            (some [("1.0", { paddle_version := [">=2.0"], hub_version := [] })])
            (some ">=2.0") none) :=
  (C1_registry_no_candidate_trichotomy registryMissWorld emptyState "demo"
      (some ">=2.0") none rfl rfl rfl).2.1 (by decide) (by decide)

/-- An empty process-wide state. -/
def emptyGlobal : HubGlobal where
  instanceMap := []
  instanceFields := []
  nextId := 0
  sysPath := []

/-- Instance fields as they look after some cache activity. -/
def demoFields : List (Nat × InstanceState) :=
  [(0, { home := "home", localModules := [("demo", demoModule)] })]

/-- Witness for C10 at a concrete fresh global state. -/
theorem C10_singleton_reinit_witness :
    (constructManager
        { (constructManager emptyGlobal (some "home")).2 with
          instanceFields := demoFields
          sysPath := [] } (some "home")).1
      = (constructManager emptyGlobal (some "home")).1 :=
  (C10_singleton_reinit emptyGlobal "home" rfl demoFields []).1

/-! ### Field lemmas for `uninstall` / `supersede`, and the C8 frame property -/

theorem uninstall_home (s : ManagerState) (name : String) :
    (uninstall s name).2.1.home = s.home := by
  unfold uninstall
  rcases h : alGet s.fs (getNormalizedPath s.home name) with _ | c <;> simp [h]

theorem uninstall_fs_get_ne (s : ManagerState) (name : String) (p : FsPath)
    (hp : p ≠ getNormalizedPath s.home name) :
    alGet (uninstall s name).2.1.fs p = alGet s.fs p := by
  unfold uninstall
  rcases h : alGet s.fs (getNormalizedPath s.home name) with _ | c
  · simp [h]
  · simp [h, alGet_remove_ne s.fs (getNormalizedPath s.home name) p
      (fun hh => hp hh.symm)]

theorem uninstall_fs_get_self (s : ManagerState) (name : String) :
    alGet (uninstall s name).2.1.fs (getNormalizedPath s.home name) = none := by
  unfold uninstall
  rcases h : alGet s.fs (getNormalizedPath s.home name) with _ | c
  · simp [h]
  · simp [h, alGet_remove_self]

theorem supersede_home (w : World) (s : ManagerState) (name : String) :
    (supersede w s name).1.home = s.home := by
  unfold supersede
  rcases hf : (search w s name).1 with _ | mf
  · simp [hf, (search_preserves_fs w s name).2]
  · simp only [hf]
    rw [uninstall_home, (search_preserves_fs w s name).2]

theorem supersede_fs_get_ne (w : World) (s : ManagerState) (name : String)
    (p : FsPath) (hp : p ≠ getNormalizedPath s.home name) :
    alGet (supersede w s name).1.fs p = alGet s.fs p := by
  unfold supersede
  obtain ⟨hfs1, hhome1⟩ := search_preserves_fs w s name
  rcases hf : (search w s name).1 with _ | mf
  · simp [hf, hfs1]
  · simp only [hf]
    rw [uninstall_fs_get_ne _ _ _ (by rw [hhome1]; exact hp), hfs1]

theorem supersede_fs_get_self (w : World) (s : ManagerState) (name : String) :
    alGet (supersede w s name).1.fs (getNormalizedPath s.home name) = none ∨
    alGet (supersede w s name).1.fs (getNormalizedPath s.home name)
      = alGet s.fs (getNormalizedPath s.home name) := by
  unfold supersede
  obtain ⟨hfs1, hhome1⟩ := search_preserves_fs w s name
  rcases hf : (search w s name).1 with _ | mf
  · right
    simp [hf, hfs1]
  · left
    simp only [hf]
    have := uninstall_fs_get_self (search w s name).2.1 name
    rwa [hhome1] at this

/-- C8: a ByDirectory install never mutates the contents of the
caller-supplied source directory: after the call (on every path, success or
failure) the filesystem holds exactly the same contents at that path, because
loading happens on a temporary copy and the only writes target the module's
normalized home path. -/
theorem C8_source_directory_untouched (w : World) (s : ManagerState)
    (directory : FsPath) :
    alGet (install_from_directory w s directory).2.1.fs directory
      = alGet s.fs directory := by
  unfold install_from_directory
  rcases hd : alGet s.fs directory with _ | c
  · simp [hd]
  · rcases hi : w.loadInfo c with _ | nm
    · simp [hd, hi]
    · simp only [hd, hi]
      unfold install_resolved
      rcases hl : w.load c with _ | m0
      · simp [hd]
      · simp only
        rw [supersede_home w s m0.name]
        rcases hd2 : alGet (supersede w s m0.name).1.fs
            (getNormalizedPath s.home m0.name) with _ | cd
        · simp only [hd2, hl]
          by_cases hpd : directory = getNormalizedPath s.home m0.name
          · rw [hpd, alGet_set_self]
          · rw [alGet_set_ne _ _ _ _ (fun hh => hpd hh.symm),
              supersede_fs_get_ne w s m0.name directory hpd, hd]
        · simp only [hd2]
          by_cases hpd : directory = getNormalizedPath s.home m0.name
          · rcases supersede_fs_get_self w s m0.name with hnone | heq
            · rw [hnone] at hd2
              exact nomatch hd2
            · rw [← hpd] at heq
              rw [heq, hd]
          · rw [supersede_fs_get_ne w s m0.name directory hpd, hd]

/-! ### The at-most-one-handle-per-name invariant -/

/-- The LocalRegistry invariant: the in-memory cache holds at most one entry
per module name. -/
def cacheKeysNodup (s : ManagerState) : Prop :=
  (s.localModules.map Prod.fst).Nodup

theorem search_nodup (w : World) (s : ManagerState) (name : String)
    (h : cacheKeysNodup s) : cacheKeysNodup (search w s name).2.1 := by
  unfold search
  rcases hc : alGet s.localModules name with _ | m
  · rcases hf : alGet s.fs (getNormalizedPath s.home name) with _ | c
    · simpa [hc, hf] using h
    · rcases hl : w.load c with _ | m
      · simpa [hc, hf, hl] using h
      · simpa [hc, hf, hl, cacheKeysNodup] using
          keys_nodup_alSet s.localModules name m h
  · simpa [hc] using h

theorem uninstall_nodup (s : ManagerState) (name : String)
    (h : cacheKeysNodup s) : cacheKeysNodup (uninstall s name).2.1 := by
  unfold uninstall
  rcases hf : alGet s.fs (getNormalizedPath s.home name) with _ | c
  · simpa [hf] using h
  · simpa [hf, cacheKeysNodup] using keys_nodup_alRemove s.localModules name h

theorem supersede_nodup (w : World) (s : ManagerState) (name : String)
    (h : cacheKeysNodup s) : cacheKeysNodup (supersede w s name).1 := by
  unfold supersede
  rcases hf : (search w s name).1 with _ | mf
  · simpa [hf] using search_nodup w s name h
  · simpa [hf] using uninstall_nodup (search w s name).2.1 name
      (search_nodup w s name h)

theorem install_resolved_nodup (w : World) (s : ManagerState) (c : Content)
    (h : cacheKeysNodup s) : cacheKeysNodup (install_resolved w s c).2.1 := by
  unfold install_resolved
  rcases hl : w.load c with _ | m0
  · simpa [hl] using h
  · have h2 := supersede_nodup w s m0.name h
    rcases hd : alGet (supersede w s m0.name).1.fs
        (getNormalizedPath (supersede w s m0.name).1.home m0.name) with _ | cd
    · simpa [hl, hd, cacheKeysNodup] using
        keys_nodup_alSet (supersede w s m0.name).1.localModules m0.name m0 h2
    · simpa [hl, hd] using h2

theorem install_from_source_nodup (w : World) (s : ManagerState)
    (name clsName path : String) (h : cacheKeysNodup s) :
    cacheKeysNodup (install_from_source w s name clsName path).2.1 := by
  unfold install_from_source
  have h2 := supersede_nodup w s name h
  rcases hd : alGet (supersede w s name).1.fs
      (getNormalizedPath (supersede w s name).1.home name) with _ | cd
  · rcases hl : w.load (Content.stub clsName path) with _ | m
    · simpa [hd, hl] using h2
    · simpa [hd, hl, cacheKeysNodup] using
        keys_nodup_alSet (supersede w s name).1.localModules name m h2
  · simpa [hd] using h2

theorem install_from_directory_nodup (w : World) (s : ManagerState)
    (directory : FsPath) (h : cacheKeysNodup s) :
    cacheKeysNodup (install_from_directory w s directory).2.1 := by
  unfold install_from_directory
  rcases hd : alGet s.fs directory with _ | c
  · simpa [hd] using h
  · rcases hi : w.loadInfo c with _ | nm
    · simpa [hd, hi] using h
    · simpa [hd, hi] using install_resolved_nodup w s c h

theorem install_from_archive_content_nodup (w : World) (s : ManagerState)
    (ac : Content) (h : cacheKeysNodup s) :
    cacheKeysNodup (install_from_archive_content w s ac).2.1 := by
  unfold install_from_archive_content
  rcases hi : w.loadInfo (w.unarchive ac).2 with _ | nm
  · simpa [hi] using h
  · simpa [hi] using install_resolved_nodup w s (w.unarchive ac).2 h

theorem install_from_archive_nodup (w : World) (s : ManagerState)
    (archive : FsPath) (h : cacheKeysNodup s) :
    cacheKeysNodup (install_from_archive w s archive).2.1 := by
  unfold install_from_archive
  rcases ha : alGet s.fs archive with _ | ac
  · simpa [ha] using h
  · simpa [ha] using install_from_archive_content_nodup w s ac h

theorem install_from_url_nodup (w : World) (s : ManagerState) (url : String)
    (h : cacheKeysNodup s) :
    cacheKeysNodup (install_from_url w s url).2.1 := by
  unfold install_from_url
  exact install_from_archive_content_nodup w s (w.downloadFile url) h

theorem install_from_name_query_nodup (w : World) (s : ManagerState)
    (name : String) (version source : Option String) (h : cacheKeysNodup s) :
    cacheKeysNodup (install_from_name_query w s name version source).2.1 := by
  unfold install_from_name_query
  rcases hq : w.searchModule name version source with _ | result
  · by_cases hi : (w.getModuleInfo name source).isEmpty
    · simpa [hq, hi] using h
    · by_cases hv : (validInfos w (w.getModuleInfo name source) version).isEmpty
      · simpa [hq, hi, hv] using h
      · simpa [hq, hi, hv] using h
  · rcases result with u | ⟨n, cn, pth⟩
    · by_cases hs : (strOpt source).isSome
      · simpa [hq, hs] using h
      · simpa [hq, hs] using install_from_url_nodup w s u h
    · simpa [hq] using install_from_source_nodup w s n cn pth h

theorem install_from_name_nodup (w : World) (s : ManagerState) (name : String)
    (version source : Option String) (h : cacheKeysNodup s) :
    cacheKeysNodup (install_from_name w s name version source).2.1 := by
  unfold install_from_name
  rcases hc : alGet s.localModules name with _ | m
  · simpa [hc] using install_from_name_query_nodup w s name version source h
  · by_cases hv : verMatch w m.version version
    · simpa [hc, hv] using h
    · simpa [hc, hv] using install_from_name_query_nodup w s name version source h

theorem install_nodup (w : World) (s : ManagerState)
    (name directory archive url version source : Option String)
    (h : cacheKeysNodup s) :
    cacheKeysNodup (install w s name directory archive url version source).2.1 := by
  unfold install
  rcases hn : strOpt name with _ | n
  · rcases hd : strOpt directory with _ | d
    · rcases ha : strOpt archive with _ | a
      · rcases hu : strOpt url with _ | u
        · simpa [hn, hd, ha, hu] using h
        · simpa [hn, hd, ha, hu] using install_from_url_nodup w s u h
      · simpa [hn, hd, ha] using install_from_archive_nodup w s (FsPath.ext a) h
    · simpa [hn, hd] using install_from_directory_nodup w s (FsPath.ext d) h
  · have h1 := search_nodup w s n h
    rcases hf : (search w s n).1 with _ | m
    · simpa [hn, hf] using
        install_from_name_nodup w (search w s n).2.1 n version source h1
    · by_cases hv : verMatch w m.version version
      · simpa [hn, hf, hv] using h1
      · simpa [hn, hf, hv] using
          install_from_name_nodup w (search w s n).2.1 n version source h1

theorem listLoad_nodup (w : World) (home : String)
    (fs : List (FsPath × Content)) :
    ∀ (subs : List String) (cache : List (String × HubModule)),
      (cache.map Prod.fst).Nodup →
      ((listLoad w home fs subs cache).2.1.map Prod.fst).Nodup := by
  intro subs
  induction subs with
  | nil =>
    intro cache h
    simpa [listLoad] using h
  | cons sub0 rest ih =>
    intro cache h
    rcases hf : alGet fs (FsPath.inHome home sub0) with _ | c
    · simpa [listLoad, hf] using h
    · rcases hl : w.load c with _ | m
      · simpa [listLoad, hf, hl] using h
      · simpa [listLoad, hf, hl] using ih _ (keys_nodup_alSet cache sub0 m h)

theorem list_nodup (w : World) (s : ManagerState) (h : cacheKeysNodup s) :
    cacheKeysNodup (list w s).2.1 := by
  unfold list
  rcases hr : (listLoad w s.home s.fs (listdir s) s.localModules).1 with e | u
  · simpa [hr, cacheKeysNodup] using
      listLoad_nodup w s.home s.fs (listdir s) s.localModules h
  · simpa [hr, cacheKeysNodup] using
      listLoad_nodup w s.home s.fs (listdir s) s.localModules h

/-! ### Supersede effect shape -/

theorem uninstall_effects_found (s : ManagerState) (name : String)
    (c0 : Content)
    (hdisk : alGet s.fs (getNormalizedPath s.home name) = some c0) :
    (uninstall s name).2.2 = [Effect.fsRemove (getNormalizedPath s.home name)] := by
  unfold uninstall
  simp [hdisk]

theorem supersede_found (w : World) (s : ManagerState) (name : String)
    (c0 : Content) (mf : HubModule)
    (hdisk : alGet s.fs (getNormalizedPath s.home name) = some c0)
    (hfound : (search w s name).1 = some mf) :
    (supersede w s name).2
      = (search w s name).2.2
        ++ [Effect.fsRemove (getNormalizedPath s.home name)] ∧
    alGet (supersede w s name).1.fs (getNormalizedPath s.home name) = none := by
  unfold supersede
  obtain ⟨hfs1, hhome1⟩ := search_preserves_fs w s name
  have hd1 : alGet (search w s name).2.1.fs
      (getNormalizedPath (search w s name).2.1.home name) = some c0 := by
    rw [hfs1, hhome1]
    exact hdisk
  constructor
  · simp only [hfound]
    rw [uninstall_effects_found (search w s name).2.1 name c0 hd1, hhome1]
  · simp only [hfound]
    have hu := uninstall_fs_get_self (search w s name).2.1 name
    rwa [hhome1] at hu

theorem search_effects_loadDir (w : World) (s : ManagerState) (name : String) :
    ∀ e ∈ (search w s name).2.2, ∃ d, e = Effect.loadDir d := by
  unfold search
  rcases hc : alGet s.localModules name with _ | m
  · rcases hf : alGet s.fs (getNormalizedPath s.home name) with _ | c
    · simp [hc, hf]
    · rcases hl : w.load c with _ | m
      · simp only [hc, hf, hl]
        intro e he
        rcases List.mem_singleton.1 he with rfl
        exact ⟨_, rfl⟩
      · simp only [hc, hf, hl]
        intro e he
        rcases List.mem_singleton.1 he with rfl
        exact ⟨_, rfl⟩
  · simp [hc]

/-! ### C3 -/

/-- C3: the registry cache holds at most one handle per name across every
operation (search, uninstall, list and every install path), and both install
paths that find a module of the same name already installed — the
source-descriptor path and the resolved-directory path used by ByDirectory,
ByArchive and ByUrl — first uninstall it: the effect trace is exactly the
probe's reads, then the `fsRemove` of the normalized directory, then the
`fsWrite` materializing the new version, and the final on-disk contents of the
directory are exactly the new version's contents, never a mix. -/
theorem C3_supersede_invariant (w : World) (s : ManagerState) :
    (cacheKeysNodup s →
      (∀ name directory archive url version source,
        cacheKeysNodup (install w s name directory archive url version source).2.1) ∧
      (∀ name, cacheKeysNodup (uninstall s name).2.1) ∧
      (∀ name, cacheKeysNodup (search w s name).2.1) ∧
      cacheKeysNodup (list w s).2.1) ∧
    (∀ name clsName path c0 mf,
      alGet s.fs (getNormalizedPath s.home name) = some c0 →
      (search w s name).1 = some mf →
      (install_from_source w s name clsName path).2.2
        = (search w s name).2.2
          ++ [Effect.fsRemove (getNormalizedPath s.home name),
              Effect.fsWrite (getNormalizedPath s.home name),
              Effect.loadDir (getNormalizedPath s.home name)] ∧
      (∀ e ∈ (search w s name).2.2, ∃ d, e = Effect.loadDir d) ∧
      alGet (install_from_source w s name clsName path).2.1.fs
          (getNormalizedPath s.home name) = some (Content.stub clsName path)) ∧
    (∀ c m0 c0 mf,
      w.load c = some m0 →
      alGet s.fs (getNormalizedPath s.home m0.name) = some c0 →
      (search w s m0.name).1 = some mf →
      (install_resolved w s c).2.2
        = (search w s m0.name).2.2
          ++ [Effect.fsRemove (getNormalizedPath s.home m0.name),
              Effect.fsWrite (getNormalizedPath s.home m0.name),
              Effect.loadDir (getNormalizedPath s.home m0.name)]
          ++ (w.pyRequirements m0).map Effect.pipInstall ∧
      alGet (install_resolved w s c).2.1.fs (getNormalizedPath s.home m0.name)
        = some c) := by
  refine ⟨?_, ?_, ?_⟩
  · intro h
    exact ⟨fun name directory archive url version source =>
        install_nodup w s name directory archive url version source h,
      fun name => uninstall_nodup s name h,
      fun name => search_nodup w s name h,
      list_nodup w s h⟩
  · intro name clsName path c0 mf hdisk hfound
    obtain ⟨heff, hnone⟩ := supersede_found w s name c0 mf hdisk hfound
    have hhome := supersede_home w s name
    refine ⟨?_, search_effects_loadDir w s name, ?_⟩
    · simp only [install_from_source]
      rw [hhome]
      simp only [hnone]
      rcases hl : w.load (Content.stub clsName path) with _ | m <;>
        simp [hl, heff]
    · simp only [install_from_source]
      rw [hhome]
      simp only [hnone]
      rcases hl : w.load (Content.stub clsName path) with _ | m <;>
        simp [hl, alGet_set_self]
  · intro c m0 c0 mf hload hdisk hfound
    obtain ⟨heff, hnone⟩ := supersede_found w s m0.name c0 mf hdisk hfound
    have hhome := supersede_home w s m0.name
    constructor
    · simp only [install_resolved, hload]
      rw [hhome]
      simp only [hnone]
      simp [heff]
    · simp only [install_resolved, hload]
      rw [hhome]
      simp only [hnone]
      simp [alGet_set_self]

/-- Witness for C3: superseding the installed `demo` module through the
source-descriptor path leaves exactly the generated stub on disk. -/
theorem C3_supersede_invariant_witness :
    alGet (install_from_source demoWorld demoState "demo" "Cls" "/repo").2.1.fs
        (getNormalizedPath demoState.home "demo")
      = some (Content.stub "Cls" "/repo") :=
  (((C3_supersede_invariant demoWorld demoState).2.1 "demo" "Cls" "/repo"
      (Content.blob 0) demoModule rfl rfl).2.2)

/-! ### C2 -/

/-- A network fetch. -/
def isDownloadEffect : Effect → Bool
  | Effect.download _ => true
  | _ => false

/-- C2: when a by-name install finds an already-installed module whose
version satisfies the request (or no version was requested), it returns that
handle immediately — the effect trace holds only the lock events and the
probe's directory reads, never a registry query, download or filesystem
write, and the filesystem is unchanged.  Consequently installing the same
name twice with no version constraint performs exactly one download and the
second call returns the cached handle with a bare lock-acquire/release
trace. -/
theorem C2_short_circuit_single_fetch (w : World) (s : ManagerState)
    (n : String) (version source : Option String) (m : HubModule)
    (hn : n.isEmpty = false) :
    ((search w s n).1 = some m → verMatch w m.version version = true →
      install w s (some n) none none none version source
        = (Except.ok m, (search w s n).2.1,
            Effect.lockAcquire n :: (search w s n).2.2
              ++ [Effect.lockRelease n]) ∧
      (search w s n).2.1.fs = s.fs ∧
      (∀ e ∈ (search w s n).2.2, ∃ d, e = Effect.loadDir d)) ∧
    (∀ (u nm : String) (h : HubModule),
      alGet s.localModules n = none →
      alGet s.fs (getNormalizedPath s.home n) = none →
      w.searchModule n none none = some (SearchResult.url u) →
      w.loadInfo (w.unarchive (w.downloadFile u)).2 = some nm →
      w.load (w.unarchive (w.downloadFile u)).2 = some h →
      h.name = n →
      (install w s (some n) none none none none none).1 = Except.ok h ∧
      (install w s (some n) none none none none none).2.2.countP
          (fun e => isDownloadEffect e) = 1 ∧
      install w (install w s (some n) none none none none none).2.1
          (some n) none none none none none
        = (Except.ok h, (install w s (some n) none none none none none).2.1,
            [Effect.lockAcquire n, Effect.lockRelease n])) := by
  constructor
  · intro hfound hver
    refine ⟨?_, (search_preserves_fs w s n).1, search_effects_loadDir w s n⟩
    simp [install, strOpt, hn, hfound, hver]
  · intro u nm h hcache hdisk hq hinfo hload hname
    have hsearch1 : search w s n = (none, s, []) := by
      unfold search
      simp [hcache, hdisk]
    have hsup : supersede w s n = (s, []) := by
      unfold supersede
      simp [hsearch1]
    have hres : install_resolved w s (w.unarchive (w.downloadFile u)).2
        = (Except.ok h,
            { s with
              fs := alSet s.fs (getNormalizedPath s.home n)
                  (w.unarchive (w.downloadFile u)).2
              localModules := alSet s.localModules n h },
            [Effect.fsWrite (getNormalizedPath s.home n),
             Effect.loadDir (getNormalizedPath s.home n)]
              ++ (w.pyRequirements h).map Effect.pipInstall) := by
      simp only [install_resolved, hload, hname, hsup]
      simp [hdisk]
    have harc : install_from_archive_content w s (w.downloadFile u)
        = (Except.ok h,
            { s with
              fs := alSet s.fs (getNormalizedPath s.home n)
                  (w.unarchive (w.downloadFile u)).2
              localModules := alSet s.localModules n h },
            Effect.unarchive
              :: ([Effect.fsWrite (getNormalizedPath s.home n),
                   Effect.loadDir (getNormalizedPath s.home n)]
                ++ (w.pyRequirements h).map Effect.pipInstall)) := by
      simp only [install_from_archive_content, hinfo, hres]
    have hurl : install_from_url w s u
        = (Except.ok h,
            { s with
              fs := alSet s.fs (getNormalizedPath s.home n)
                  (w.unarchive (w.downloadFile u)).2
              localModules := alSet s.localModules n h },
            Effect.download u
              :: Effect.unarchive
              :: ([Effect.fsWrite (getNormalizedPath s.home n),
                   Effect.loadDir (getNormalizedPath s.home n)]
                ++ (w.pyRequirements h).map Effect.pipInstall)) := by
      simp only [install_from_url, harc]
    have hifn : install_from_name w s n none none
        = (Except.ok h,
            { s with
              fs := alSet s.fs (getNormalizedPath s.home n)
                  (w.unarchive (w.downloadFile u)).2
              localModules := alSet s.localModules n h },
            Effect.registryQuery n
              :: Effect.download u
              :: Effect.unarchive
              :: ([Effect.fsWrite (getNormalizedPath s.home n),
                   Effect.loadDir (getNormalizedPath s.home n)]
                ++ (w.pyRequirements h).map Effect.pipInstall)) := by
      simp only [install_from_name, hcache, install_from_name_query, hq]
      simp [hurl]
    have hfirst : install w s (some n) none none none none none
        = (Except.ok h,
            { s with
              fs := alSet s.fs (getNormalizedPath s.home n)
                  (w.unarchive (w.downloadFile u)).2
              localModules := alSet s.localModules n h },
            Effect.lockAcquire n
              :: (Effect.registryQuery n
                :: Effect.download u
                :: Effect.unarchive
                :: ([Effect.fsWrite (getNormalizedPath s.home n),
                     Effect.loadDir (getNormalizedPath s.home n)]
                  ++ (w.pyRequirements h).map Effect.pipInstall))
              ++ [Effect.lockRelease n]) := by
      simp only [install, strOpt, hn, Bool.false_eq_true, if_false, hsearch1,
        hifn, List.nil_append]
    refine ⟨by rw [hfirst], ?_, ?_⟩
    · rw [hfirst]
      simp [isDownloadEffect, List.countP_cons, List.countP_append,
        List.countP_map]
    · rw [hfirst]
      have hsearch2 : search w
          { s with
            fs := alSet s.fs (getNormalizedPath s.home n)
                (w.unarchive (w.downloadFile u)).2
            localModules := alSet s.localModules n h } n
          = (some h,
              { s with
                fs := alSet s.fs (getNormalizedPath s.home n)
                    (w.unarchive (w.downloadFile u)).2
                localModules := alSet s.localModules n h }, []) := by
        unfold search
        simp [alGet_set_self]
      simp [install, strOpt, hn, hsearch2, verMatch]

/-- A world whose registry returns a direct url for every query, downloading
and extracting to contents that load as `demoModule`. -/
def fetchWorld : World where
  vm := fun _ _ => true
  load := fun _ => some demoModule
  loadInfo := fun _ => some "demo"
  searchModule := fun _ _ _ => some (SearchResult.url "http://server/demo.tar.gz")
  getModuleInfo := fun _ _ => []
  downloadFile := fun _ => Content.blob 7
  unarchive := fun _ => ("demo", Content.blob 8)
  pyRequirements := fun _ => []
  pipInstall := fun _ => true

/-- Witness for C2: a fresh install of `demo` downloads exactly once; the
immediate second install returns the cached handle under a bare lock trace. -/
theorem C2_short_circuit_single_fetch_witness :
    (install fetchWorld emptyState (some "demo") none none none none none).1
      = Except.ok demoModule ∧
    (install fetchWorld emptyState
        (some "demo") none none none none none).2.2.countP
        (fun e => isDownloadEffect e) = 1 ∧
    install fetchWorld
        (install fetchWorld emptyState (some "demo") none none none none none).2.1
        (some "demo") none none none none none
      = (Except.ok demoModule,
          (install fetchWorld emptyState
            (some "demo") none none none none none).2.1,
          [Effect.lockAcquire "demo", Effect.lockRelease "demo"]) :=
  (C2_short_circuit_single_fetch fetchWorld emptyState "demo" none none
      demoModule rfl).2 "http://server/demo.tar.gz" "demo" demoModule
    rfl rfl rfl rfl rfl rfl

/-! ### C9: the per-name lock -/

/-- A lock event. -/
def isLockEffect : Effect → Bool
  | Effect.lockAcquire _ => true
  | Effect.lockRelease _ => true
  | _ => false

theorem lockfree_append {l1 l2 : List Effect}
    (h1 : ∀ e ∈ l1, isLockEffect e = false)
    (h2 : ∀ e ∈ l2, isLockEffect e = false) :
    ∀ e ∈ l1 ++ l2, isLockEffect e = false := by
  intro e he
  rcases List.mem_append.1 he with h | h
  · exact h1 e h
  · exact h2 e h

theorem lockfree_cons {x : Effect} {l : List Effect}
    (hx : isLockEffect x = false)
    (hl : ∀ e ∈ l, isLockEffect e = false) :
    ∀ e ∈ x :: l, isLockEffect e = false := by
  intro e he
  rcases List.mem_cons.1 he with rfl | h
  · exact hx
  · exact hl e h

theorem lockfree_pipmap (w : World) (m : HubModule) :
    ∀ e ∈ (w.pyRequirements m).map Effect.pipInstall, isLockEffect e = false := by
  intro e he
  rcases List.mem_map.1 he with ⟨r, _, rfl⟩
  rfl

theorem lockfree_write_pair (dir : FsPath) :
    ∀ e ∈ [Effect.fsWrite dir, Effect.loadDir dir], isLockEffect e = false := by
  intro e he
  rcases List.mem_cons.1 he with rfl | he
  · rfl
  · rcases List.mem_singleton.1 he with rfl
    rfl

theorem search_lockfree (w : World) (s : ManagerState) (name : String) :
    ∀ e ∈ (search w s name).2.2, isLockEffect e = false := by
  intro e he
  rcases search_effects_loadDir w s name e he with ⟨d, rfl⟩
  rfl

theorem uninstall_lockfree (s : ManagerState) (name : String) :
    ∀ e ∈ (uninstall s name).2.2, isLockEffect e = false := by
  unfold uninstall
  rcases h : alGet s.fs (getNormalizedPath s.home name) with _ | c
  · simp [h]
  · simp only [h]
    exact lockfree_cons rfl (by simp)

theorem supersede_lockfree (w : World) (s : ManagerState) (name : String) :
    ∀ e ∈ (supersede w s name).2, isLockEffect e = false := by
  unfold supersede
  rcases hf : (search w s name).1 with _ | mf
  · simpa [hf] using search_lockfree w s name
  · simp only [hf]
    exact lockfree_append (search_lockfree w s name)
      (uninstall_lockfree (search w s name).2.1 name)

theorem install_resolved_lockfree (w : World) (s : ManagerState) (c : Content) :
    ∀ e ∈ (install_resolved w s c).2.2, isLockEffect e = false := by
  unfold install_resolved
  rcases hl : w.load c with _ | m0
  · simp [hl]
  · rcases hd : alGet (supersede w s m0.name).1.fs
        (getNormalizedPath (supersede w s m0.name).1.home m0.name) with _ | cd
    · simp only [hl, hd]
      exact lockfree_append
        (lockfree_append (supersede_lockfree w s m0.name)
          (lockfree_write_pair _))
        (lockfree_pipmap w m0)
    · simp only [hl, hd]
      exact supersede_lockfree w s m0.name

theorem install_from_source_lockfree (w : World) (s : ManagerState)
    (name clsName path : String) :
    ∀ e ∈ (install_from_source w s name clsName path).2.2,
      isLockEffect e = false := by
  unfold install_from_source
  rcases hd : alGet (supersede w s name).1.fs
      (getNormalizedPath (supersede w s name).1.home name) with _ | cd
  · rcases hl : w.load (Content.stub clsName path) with _ | m
    · simp only [hd, hl]
      exact lockfree_append (supersede_lockfree w s name)
        (lockfree_write_pair _)
    · simp only [hd, hl]
      exact lockfree_append (supersede_lockfree w s name)
        (lockfree_write_pair _)
  · simp only [hd]
    exact supersede_lockfree w s name

theorem install_from_directory_lockfree (w : World) (s : ManagerState)
    (directory : FsPath) :
    ∀ e ∈ (install_from_directory w s directory).2.2, isLockEffect e = false := by
  unfold install_from_directory
  rcases hd : alGet s.fs directory with _ | c
  · simp [hd]
  · rcases hi : w.loadInfo c with _ | nm
    · simp [hd, hi]
    · simp only [hd, hi]
      exact install_resolved_lockfree w s c

theorem install_from_archive_content_lockfree (w : World) (s : ManagerState)
    (ac : Content) :
    ∀ e ∈ (install_from_archive_content w s ac).2.2, isLockEffect e = false := by
  unfold install_from_archive_content
  rcases hi : w.loadInfo (w.unarchive ac).2 with _ | nm
  · simp [hi, isLockEffect]
  · simp only [hi]
    exact lockfree_cons rfl (install_resolved_lockfree w s (w.unarchive ac).2)

theorem install_from_archive_lockfree (w : World) (s : ManagerState)
    (archive : FsPath) :
    ∀ e ∈ (install_from_archive w s archive).2.2, isLockEffect e = false := by
  unfold install_from_archive
  rcases ha : alGet s.fs archive with _ | ac
  · simp [ha]
  · simp only [ha]
    exact install_from_archive_content_lockfree w s ac

theorem install_from_url_lockfree (w : World) (s : ManagerState) (url : String) :
    ∀ e ∈ (install_from_url w s url).2.2, isLockEffect e = false := by
  unfold install_from_url
  exact lockfree_cons rfl
    (install_from_archive_content_lockfree w s (w.downloadFile url))

theorem install_from_name_query_lockfree (w : World) (s : ManagerState)
    (name : String) (version source : Option String) :
    ∀ e ∈ (install_from_name_query w s name version source).2.2,
      isLockEffect e = false := by
  unfold install_from_name_query
  rcases hq : w.searchModule name version source with _ | result
  · by_cases hi : (w.getModuleInfo name source).isEmpty
    · simp only [hq, hi]
      simp [isLockEffect]
    · by_cases hv : (validInfos w (w.getModuleInfo name source) version).isEmpty
      · simp only [hq, hi, hv]
        simp [isLockEffect]
      · simp only [hq, hi, hv]
        simp [isLockEffect]
  · rcases result with u | ⟨nn, cn, pth⟩
    · by_cases hs : (strOpt source).isSome
      · simp only [hq, hs]
        simp [isLockEffect]
      · simp only [hq, hs]
        exact lockfree_cons rfl (install_from_url_lockfree w s u)
    · simp only [hq]
      exact lockfree_cons rfl (install_from_source_lockfree w s nn cn pth)

theorem install_from_name_lockfree (w : World) (s : ManagerState)
    (name : String) (version source : Option String) :
    ∀ e ∈ (install_from_name w s name version source).2.2,
      isLockEffect e = false := by
  unfold install_from_name
  rcases hc : alGet s.localModules name with _ | m
  · simp only [hc]
    exact install_from_name_query_lockfree w s name version source
  · by_cases hv : verMatch w m.version version
    · simp [hc, hv]
    · simp only [hc, hv]
      simp only [Bool.false_eq_true, if_false]
      exact install_from_name_query_lockfree w s name version source

/-- The trace of a by-name install: lock acquisition first, lock release
last, and the whole decision-and-install sequence — the already-satisfied
probe and any resolution work — strictly inside, with no other lock events. -/
theorem install_by_name_trace (w : World) (s : ManagerState) (n : String)
    (version source : Option String) (hn : n.isEmpty = false) :
    ∃ mid, (install w s (some n) none none none version source).2.2
        = Effect.lockAcquire n :: mid ++ [Effect.lockRelease n] ∧
      ∀ e ∈ mid, isLockEffect e = false := by
  rcases hf : (search w s n).1 with _ | m
  · refine ⟨(search w s n).2.2
        ++ (install_from_name w (search w s n).2.1 n version source).2.2, ?_,
      lockfree_append (search_lockfree w s n)
        (install_from_name_lockfree w (search w s n).2.1 n version source)⟩
    simp [install, strOpt, hn, hf]
  · by_cases hv : verMatch w m.version version = true
    · refine ⟨(search w s n).2.2, ?_, search_lockfree w s n⟩
      simp [install, strOpt, hn, hf, hv]
    · refine ⟨(search w s n).2.2
          ++ (install_from_name w (search w s n).2.1 n version source).2.2, ?_,
        lockfree_append (search_lockfree w s n)
          (install_from_name_lockfree w (search w s n).2.1 n version source)⟩
      simp [install, strOpt, hn, hf, hv]

/-- An interleaving of two traces, tagging each event with the process that
produced it (`true` = first process). -/
inductive Interleave {α : Type} : List α → List α → List (Bool × α) → Prop where
  | nil : Interleave [] [] []
  | left : ∀ {x : α} {xs ys zs}, Interleave xs ys zs →
      Interleave (x :: xs) ys ((true, x) :: zs)
  | right : ∀ {y : α} {xs ys zs}, Interleave xs ys zs →
      Interleave xs (y :: ys) ((false, y) :: zs)

/-- One step of the per-name advisory lock for name `n`: `none` means the
step is impossible (acquiring a busy lock, or releasing a lock one does not
hold); otherwise the new holder. -/
def lockStep (n : String) (holder : Option Bool) (we : Bool × Effect) :
    Option (Option Bool) :=
  match we.2 with
  | Effect.lockAcquire m =>
    if m = n then
      match holder with
      | none => some (some we.1)
      | some _ => none
    else some holder
  | Effect.lockRelease m =>
    if m = n then
      match holder with
      | some b => if b = we.1 then some none else none
      | none => none
    else some holder
  | _ => some holder

/-- A tagged trace respects the lock discipline for name `n`, starting from
the given holder. -/
def lockValidFrom (n : String) : Option Bool → List (Bool × Effect) → Bool
  | _, [] => true
  | holder, we :: rest =>
    match lockStep n holder we with
    | none => false
    | some holder2 => lockValidFrom n holder2 rest

theorem lockStep_nonlock (n : String) (holder : Option Bool) (b : Bool)
    (e : Effect) (he : isLockEffect e = false) :
    lockStep n holder (b, e) = some holder := by
  cases e <;> first
    | rfl
    | simp [isLockEffect] at he

theorem interleave_nil_left {α : Type} {ys : List α} {z : List (Bool × α)}
    (h : Interleave [] ys z) : z = ys.map (fun y => (false, y)) := by
  induction z generalizing ys with
  | nil =>
    cases h
    rfl
  | cons p z ih =>
    cases h with
    | right h2 => simp [ih h2]

theorem interleave_nil_right {α : Type} {xs : List α} {z : List (Bool × α)}
    (h : Interleave xs [] z) : z = xs.map (fun x => (true, x)) := by
  induction z generalizing xs with
  | nil =>
    cases h
    rfl
  | cons p z ih =>
    cases h with
    | left h2 => simp [ih h2]

theorem lock_run_left (n : String) :
    ∀ (m1 ys : List Effect) (z : List (Bool × Effect)),
      (∀ e ∈ m1, isLockEffect e = false) →
      Interleave (m1 ++ [Effect.lockRelease n]) (Effect.lockAcquire n :: ys) z →
      lockValidFrom n (some true) z = true →
      z = (m1 ++ [Effect.lockRelease n]).map (fun e => (true, e))
          ++ (Effect.lockAcquire n :: ys).map (fun e => (false, e)) := by
  intro m1
  induction m1 with
  | nil =>
    intro ys z h1 hz hv
    rw [List.nil_append] at hz
    cases hz with
    | left h2 =>
      rw [interleave_nil_left h2]
      simp
    | right h2 =>
      simp [lockValidFrom, lockStep] at hv
  | cons e m1' ih =>
    intro ys z h1 hz hv
    have he : isLockEffect e = false := h1 e (by simp)
    rw [List.cons_append] at hz
    cases hz with
    | left h2 =>
      rw [lockValidFrom, lockStep_nonlock n (some true) true e he] at hv
      rw [ih ys _ (fun x hx => h1 x (by simp [hx])) h2 hv]
      simp
    | right h2 =>
      simp [lockValidFrom, lockStep] at hv

theorem lock_run_right (n : String) :
    ∀ (m2 xs : List Effect) (z : List (Bool × Effect)),
      (∀ e ∈ m2, isLockEffect e = false) →
      Interleave (Effect.lockAcquire n :: xs) (m2 ++ [Effect.lockRelease n]) z →
      lockValidFrom n (some false) z = true →
      z = (m2 ++ [Effect.lockRelease n]).map (fun e => (false, e))
          ++ (Effect.lockAcquire n :: xs).map (fun e => (true, e)) := by
  intro m2
  induction m2 with
  | nil =>
    intro xs z h2 hz hv
    rw [List.nil_append] at hz
    cases hz with
    | right h3 =>
      rw [interleave_nil_right h3]
      simp
    | left h3 =>
      simp [lockValidFrom, lockStep] at hv
  | cons e m2' ih =>
    intro xs z h2 hz hv
    have he : isLockEffect e = false := h2 e (by simp)
    rw [List.cons_append] at hz
    cases hz with
    | right h3 =>
      rw [lockValidFrom, lockStep_nonlock n (some false) false e he] at hv
      rw [ih xs _ (fun x hx => h2 x (by simp [hx])) h3 hv]
      simp
    | left h3 =>
      simp [lockValidFrom, lockStep] at hv

/-- Mutual exclusion: a lock-respecting interleaving of two critical sections
for the same name is one of the two sequential orders — the sections cannot
overlap. -/
theorem lock_serializes (n : String) (m1 m2 : List Effect)
    (h1 : ∀ e ∈ m1, isLockEffect e = false)
    (h2 : ∀ e ∈ m2, isLockEffect e = false)
    (z : List (Bool × Effect))
    (hz : Interleave (Effect.lockAcquire n :: m1 ++ [Effect.lockRelease n])
        (Effect.lockAcquire n :: m2 ++ [Effect.lockRelease n]) z)
    (hv : lockValidFrom n none z = true) :
    z = (Effect.lockAcquire n :: m1 ++ [Effect.lockRelease n]).map
          (fun e => (true, e))
        ++ (Effect.lockAcquire n :: m2 ++ [Effect.lockRelease n]).map
          (fun e => (false, e))
    ∨ z = (Effect.lockAcquire n :: m2 ++ [Effect.lockRelease n]).map
          (fun e => (false, e))
        ++ (Effect.lockAcquire n :: m1 ++ [Effect.lockRelease n]).map
          (fun e => (true, e)) := by
  cases hz with
  | left h3 =>
    left
    rw [lockValidFrom] at hv
    simp only [lockStep, if_pos rfl] at hv
    rw [lock_run_left n m1 (m2 ++ [Effect.lockRelease n]) _ h1 h3 hv]
    simp
  | right h3 =>
    right
    rw [lockValidFrom] at hv
    simp only [lockStep, if_pos rfl] at hv
    rw [lock_run_right n m2 (m1 ++ [Effect.lockRelease n]) _ h2 h3 hv]
    simp

/-- C9: every by-name install wraps its whole decision-and-install sequence
(the already-satisfied probe and any resolution work) between the acquisition
and release of the per-name lock, with no other lock events inside; and any
lock-respecting interleaving of two by-name installs of the same name is one
of the two full serializations — at most one install proceeds past the
already-satisfied check at a time. -/
theorem C9_per_name_lock_serialization (w1 w2 : World) (s1 s2 : ManagerState)
    (n : String) (v1 src1 v2 src2 : Option String) (hn : n.isEmpty = false) :
    (∃ mid, (install w1 s1 (some n) none none none v1 src1).2.2
        = Effect.lockAcquire n :: mid ++ [Effect.lockRelease n] ∧
      ∀ e ∈ mid, isLockEffect e = false) ∧
    (∀ z, Interleave (install w1 s1 (some n) none none none v1 src1).2.2
          (install w2 s2 (some n) none none none v2 src2).2.2 z →
      lockValidFrom n none z = true →
      z = (install w1 s1 (some n) none none none v1 src1).2.2.map
            (fun e => (true, e))
          ++ (install w2 s2 (some n) none none none v2 src2).2.2.map
            (fun e => (false, e))
      ∨ z = (install w2 s2 (some n) none none none v2 src2).2.2.map
            (fun e => (false, e))
          ++ (install w1 s1 (some n) none none none v1 src1).2.2.map
            (fun e => (true, e))) := by
  obtain ⟨mid1, hm1, hl1⟩ := install_by_name_trace w1 s1 n v1 src1 hn
  obtain ⟨mid2, hm2, hl2⟩ := install_by_name_trace w2 s2 n v2 src2 hn
  refine ⟨⟨mid1, hm1, hl1⟩, ?_⟩
  intro z hz hv
  rw [hm1, hm2] at hz ⊢
  exact lock_serializes n mid1 mid2 hl1 hl2 z hz hv

/-- Witness for C9 at the cached-module state. -/
theorem C9_per_name_lock_serialization_witness :
    ∃ mid, (install demoWorld demoState
        (some "demo") none none none none none).2.2
      = Effect.lockAcquire "demo" :: mid ++ [Effect.lockRelease "demo"] ∧
      ∀ e ∈ mid, isLockEffect e = false :=
  (C9_per_name_lock_serialization demoWorld demoWorld demoState demoState
      "demo" none none none none rfl).1

end PaddleHubSpec
